import Mathlib

/-!
# Verification of the marine-term-translations Node back end

A shallow embedding, in Lean 4, of the service layer of the repository
(`src/services/githubService.js`) together with proofs about the embedded
operations.  JavaScript objects coming from parsed YAML/JSON are modelled as
association lists (`List (String × String)` and friends); JavaScript
`undefined` is modelled by `Option`; remote (Octokit) calls are modelled as an
explicit trace of `RemoteCall` values produced alongside the result, and the
environment (what the remote host would answer) is passed in as explicit data.
-/

namespace NodeBackEnd

/-! ## Translation document model

A translation file parses to `{ labels: [ { name, translations: [ {lang: term, ...}, ... ] }, ... ] }`.
A `LangEntry` models one element of a `translations` list: a JS object mapping
language codes to terms, kept as an association list in key order.  `rest`
fields model any further key/value data the YAML document carries that the
service never touches. -/

/-- One element of a label's `translations` list: a JS object of
language-code/term pairs, in insertion order. -/
abbrev LangEntry := List (String × String)

/-- JS property read `e[lang]`: first binding of the key, `none` for
`undefined`. -/
def lookupE (e : LangEntry) (lang : String) : Option String :=
  (e.find? (fun p => p.1 == lang)).map (·.2)

/-- JS `e.hasOwnProperty(lang)` / `e[lang] !== undefined` for parsed YAML
data (values are strings, never `undefined`). -/
def hasLang (e : LangEntry) (lang : String) : Bool :=
  (lookupE e lang).isSome

/-- A label of a translation document: `{ name, translations, ...rest }`. -/
structure Label where
  name : String
  translations : List LangEntry
  rest : List (String × String) := []
  deriving DecidableEq

/-- A parsed translation document: `{ labels, ...rest }`. -/
structure TranslationDoc where
  labels : List Label
  rest : List (String × String) := []
  deriving DecidableEq

/-! ## Conflict detector (`getConflicts`, lines 444-505)

For each label of the reference (`sync`) side that also occurs by name on the
branch side, each reference-side translation entry is matched with the first
branch-side entry sharing at least one language key, and every language of the
reference entry whose value differs from the branch entry's value for that
language — unless the reference value is the empty string — is reported. -/

/-- One reported conflict, as pushed by `getConflicts`
(`{label, language, syncValue, branchValue}`); `branchValue` is `none` when
the matched branch entry lacks the language (JS `undefined`). -/
structure Conflict where
  label : String
  language : String
  syncValue : String
  branchValue : Option String
  deriving DecidableEq

/-- The `find` predicate on branch-side entries (line 453):
`Object.keys(t).some(lang => syncTranslation[lang] !== undefined && t[lang] !== undefined)`. -/
def entryMatches (syncT : LangEntry) (t : LangEntry) : Bool :=
  t.any (fun p => hasLang syncT p.1 && hasLang t p.1)

/-- Lines 461-475: walk `Object.entries(syncTranslation)` and push a conflict
whenever `syncValue !== branchTranslation[lang] && syncValue !== ""`. -/
def entryConflicts (labelName : String) (syncT branchT : LangEntry) : List Conflict :=
  syncT.filterMap (fun p =>
    if some p.2 ≠ lookupE branchT p.1 ∧ p.2 ≠ "" then
      some ⟨labelName, p.1, p.2, lookupE branchT p.1⟩
    else none)

/-- Lines 447-479: for one reference-side label, find the branch label of the
same name; for each reference entry, find the first branch entry sharing a
language key and collect its conflicts. -/
def labelConflicts (branchLabels : List Label) (syncLabel : Label) : List Conflict :=
  match branchLabels.find? (fun l => l.name == syncLabel.name) with
  | none => []
  | some branchLabel =>
    syncLabel.translations.flatMap (fun syncT =>
      match branchLabel.translations.find? (entryMatches syncT) with
      | none => []
      | some branchT => entryConflicts syncLabel.name syncT branchT)

/-- The per-file conflict list of `getConflicts` for one common file, given
the two parsed documents (`parsedSync` from the reference side, `parsedBranch`
from the working branch). -/
def fileConflicts (parsedSync parsedBranch : TranslationDoc) : List Conflict :=
  parsedSync.labels.flatMap (labelConflicts parsedBranch.labels)

/-- One element of the list built at lines 406-491: `{ filename, conflicts }`. -/
structure FileConflicts where
  filename : String
  conflicts : List Conflict
  deriving DecidableEq

/-- Lines 406-505 of `getConflicts`, starting from the parsed contents of the
common files (each common file with its reference-side and branch-side parsed
document): build the per-file list, then return it whole if any file has a
conflict and `[]` otherwise. -/
def getConflictsFromContents
    (files : List (String × TranslationDoc × TranslationDoc)) : List FileConflicts :=
  let conflictslist := files.map (fun f => ⟨f.1, fileConflicts f.2.1 f.2.2⟩)
  let boolConflict := conflictslist.any (fun fc => !fc.conflicts.isEmpty)
  if boolConflict then conflictslist else []

/-! ## Translation merger (`updateFileWithTranslations`, lines 530-547)

The in-memory merge step: for every label of the document whose name is a key
of the incoming map, each requested (language, term) pair overwrites the first
translation entry owning that language; a missing language produces a console
warning and no change.  Warnings are modelled as an explicit output list of
`(language, labelName)` pairs. -/

/-- The incoming `translations` request body: label name → (language → term),
as ordered association lists. -/
abbrev TranslationsMap := List (String × List (String × String))

/-- JS `value.hasOwnProperty(k)` / `value[k]` on the incoming map. -/
def lookupM (m : TranslationsMap) (k : String) : Option (List (String × String)) :=
  (m.find? (fun p => p.1 == k)).map (·.2)

/-- JS `translationObj[language] = term` on an object that owns the key:
replace the value of the (first) binding of `language`, keeping key order. -/
def setLang (t : LangEntry) (language term : String) : LangEntry :=
  match t with
  | [] => []
  | p :: rest =>
    if p.1 == language then (p.1, term) :: rest else p :: setLang rest language term

/-- Lines 535-544 for one (language, term) pair:
`label.translations.find(t => t.hasOwnProperty(language))`; overwrite it when
found (second component `true`), otherwise leave the list unchanged
(second component `false`, i.e. a warning is logged). -/
def applyLangTerm : List LangEntry → String → String → List LangEntry × Bool
  | [], _, _ => ([], false)
  | t :: rest, language, term =>
    if hasLang t language then (setLang t language term :: rest, true)
    else
      let r := applyLangTerm rest language term
      (t :: r.1, r.2)

/-- Lines 534-545: fold the `Object.entries(value[translationKey])` pairs over
one label, collecting `(language, labelName)` warnings for pairs whose
language is absent. -/
def applyPairs : Label → List (String × String) → Label × List (String × String)
  | l, [] => (l, [])
  | l, p :: rest =>
    let r := applyLangTerm l.translations p.1 p.2
    let step := applyPairs { l with translations := r.1 } rest
    (step.1, (if r.2 then [] else [(p.1, l.name)]) ++ step.2)

/-- Lines 531-547 for one label: labels whose name is not a key of the
incoming map are untouched. -/
def applyLabel (m : TranslationsMap) (l : Label) : Label × List (String × String) :=
  match lookupM m l.name with
  | none => (l, [])
  | some pairs => applyPairs l pairs

/-- The whole merge step (lines 531-547): the updated document plus every
`Language ... not found for label ...` warning, in document order. -/
def applyTranslations (d : TranslationDoc) (m : TranslationsMap) :
    TranslationDoc × List (String × String) :=
  let results := d.labels.map (applyLabel m)
  ({ labels := results.map (·.1), rest := d.rest }, (results.map (·.2)).flatten)

/-! ## Remote-call traces

Stateful service methods are embedded as functions from an explicit
environment (the data the remote host would answer with) to a pair of the
ordered trace of remote calls issued and the outcome (`Except` for JS
throws). -/

/-- One Octokit request issued by the service layer. -/
inductive RemoteCall where
  /-- `GET /repos/{owner}/{repo}/pulls` filtered by head/base. -/
  | listPulls
  /-- `GET /repos/{owner}/{repo}/compare/{basehead}`. -/
  | compareRefs
  /-- `POST /repos/{owner}/{repo}/pulls` with the given `draft` flag. -/
  | createPull (draft : Bool)
  /-- `GET /repos/{owner}/{repo}/pulls/{pull_number}/files`. -/
  | listPullFiles (pullNumber : Nat)
  /-- `GET /repos/{owner}/{repo}/pulls/{pull_number}/comments`. -/
  | listPullComments (pullNumber : Nat)
  /-- `GET /repos/{owner}/{repo}/contents/{path}` at a ref. -/
  | getContents (path ref : String)
  /-- `PUT /repos/{owner}/{repo}/contents/{path}` on a branch. -/
  | putContents (path branch : String)
  /-- `GET /repos/{owner}/{repo}/pulls/{pull_number}`. -/
  | getPullDetails (pullNumber : Nat)
  /-- GraphQL `markPullRequestReadyForReview` mutation. -/
  | markReady
  /-- `PUT /repos/{owner}/{repo}/pulls/{pull_number}/merge`. -/
  | mergePull (pullNumber : Nat)
  /-- `DELETE /repos/{owner}/{repo}/git/refs/heads/{branch}`. -/
  | deleteBranch
  deriving DecidableEq

/-- A JavaScript exception thrown by the service layer itself. -/
inductive JsFailure where
  /-- Referencing an identifier that is bound nowhere in the module scope. -/
  | referenceError (name : String)
  /-- A `TypeError` (e.g. `Object.keys(null)`). -/
  | typeError (msg : String)
  deriving DecidableEq

/-- A domain `Error` as thrown by the service (`error.status`, `error.message`
and, when set, `error.type`). -/
structure DomainError where
  status : Nat
  message : String
  etype : String := ""
  deriving DecidableEq

/-! ## Merge orchestrator (`mergeBranch`, lines 936-1037) -/

/-- What the remote host answers during a `mergeBranch` run: the filtered
pull-request list (`pullsResponse.data`, as PR numbers), and the `mergeable`,
`draft` and (post-merge-call) `merged` fields. -/
structure MergeEnv where
  branch : String
  pulls : List Nat
  mergeable : Bool
  draft : Bool
  merged : Bool
  deriving DecidableEq

/-- `mergeBranch` (lines 936-1037): resolve the first pull request for the
branch (404 if none); if not mergeable, fail 400 "Not Mergeable" without a
merge call; if mergeable and draft, mark ready for review before merging;
after the merge call, delete the branch only when the response reports
`merged`, else fail 400 "Merge Failed". -/
def mergeBranch (env : MergeEnv) : List RemoteCall × Except DomainError String :=
  match env.pulls with
  | [] =>
    ([RemoteCall.listPulls],
      Except.error ⟨404, "No pull requests found for branch: " ++ env.branch, ""⟩)
  | pr :: _ =>
    let calls := [RemoteCall.listPulls, RemoteCall.getPullDetails pr]
    if env.mergeable then
      let calls := calls ++ (if env.draft then [RemoteCall.markReady] else [])
      let calls := calls ++ [RemoteCall.mergePull pr]
      if env.merged then
        (calls ++ [RemoteCall.deleteBranch],
          Except.ok "Merge successful and branch deleted")
      else
        (calls,
          Except.error
            ⟨400, "The merge operation could not be completed.", "Merge Failed"⟩)
    else
      (calls,
        Except.error
          ⟨400, "The pull request is not mergeable. Please check for conflicts.",
            "Not Mergeable"⟩)

/-! ## Branch resolver inside `getChangedFiles` (lines 645-795) -/

/-- What the remote host answers during a `getChangedFiles` run: the open
pull requests for the branch (as numbers), the `ahead_by` field of the
`main...branch` comparison, and the number GitHub would assign to a newly
created pull request. -/
structure ChangedEnv where
  pulls : List Nat
  aheadBy : Nat
  createdNumber : Nat
  deriving DecidableEq

/-- Outcome of `getChangedFiles`: either the early
`{ compare: true, message: "The branch has no changes to compare with main." }`
signal, or the data payload built from the resolved pull request number. -/
inductive ChangedResult where
  | noChanges
  | payload (pullNumber : Nat)
  deriving DecidableEq

/-- The pull-request resolution skeleton of `getChangedFiles`
(lines 645-795), with the per-file content fetches and diffing abstracted
away: when no pull request exists, compare `main...branch`; return the
no-changes signal when `ahead_by === 0`, otherwise create a draft pull
request and use its number for the subsequent file and comment listings. -/
def getChangedFiles (env : ChangedEnv) : List RemoteCall × ChangedResult :=
  match env.pulls with
  | [] =>
    if env.aheadBy = 0 then
      ([RemoteCall.listPulls, RemoteCall.compareRefs], ChangedResult.noChanges)
    else
      ([RemoteCall.listPulls, RemoteCall.compareRefs, RemoteCall.createPull true,
        RemoteCall.listPullFiles env.createdNumber,
        RemoteCall.listPullComments env.createdNumber],
        ChangedResult.payload env.createdNumber)
  | pr :: _ =>
    ([RemoteCall.listPulls, RemoteCall.listPullFiles pr,
      RemoteCall.listPullComments pr],
      ChangedResult.payload pr)

/-! ## `updateFileWithTranslations` as executed (lines 511-586)

The module `src/services/githubService.js` binds exactly these top-level
names (lines 1-13): the imports `Octokit`, `parse`, `diffLines`,
`ERROR_MESSAGES`, `STATUS_CODES`, `GITHUB_API_VERSION` and the class
`GitHubService`.  `stringify` is not among them, so the call
`stringify(content, ...)` at line 549 resolves to no binding and throws a
`ReferenceError` in an ES module. -/

/-- The top-level bindings in scope inside `src/services/githubService.js`
(its import list, lines 1-8, plus the class declared at line 13). -/
def githubServiceModuleScope : List String :=
  ["Octokit", "parse", "diffLines", "ERROR_MESSAGES", "STATUS_CODES",
    "GITHUB_API_VERSION", "GitHubService"]

/-- Environment of one `updateFileWithTranslations` run: the request
arguments plus the parsed document the content fetch returns. -/
structure UpdateEnv where
  repo : String
  branch : String
  filename : String
  translations : TranslationsMap
  fetchedDoc : TranslationDoc
  deriving DecidableEq

/-- `updateFileWithTranslations` (lines 511-586): fetch the file, parse it,
merge the incoming translations (lines 530-547), then serialize by calling
`stringify` — which is looked up in the module scope before the sha fetch and
the PUT commit can happen.  The run therefore either proceeds to the second
contents fetch and the PUT, or throws a `ReferenceError` at the serialization
step. -/
def updateFileWithTranslationsRun (env : UpdateEnv) :
    List RemoteCall × Except JsFailure TranslationDoc :=
  let fetch := [RemoteCall.getContents env.filename env.branch]
  let merged := (applyTranslations env.fetchedDoc env.translations).1
  if githubServiceModuleScope.contains "stringify" then
    (fetch ++ [RemoteCall.getContents env.filename env.branch,
      RemoteCall.putContents env.filename env.branch],
      Except.ok merged)
  else
    (fetch, Except.error (JsFailure.referenceError "stringify"))

/-! ## Reviewer manifest (`getReviewers`, lines 164-206) -/

/-- A parsed JSON value, as produced by `JSON.parse`. -/
inductive Json where
  | null
  | boolean (b : Bool)
  | number (n : Int)
  | str (s : String)
  | array (elems : List Json)
  | object (fields : List (String × Json))

/-- JS `Object.keys`: field names of an object in insertion order, index
strings for arrays and strings, `[]` for numbers and booleans, and a
`TypeError` for `null`. -/
def jsObjectKeys : Json → Except JsFailure (List String)
  | Json.null => Except.error (JsFailure.typeError "Cannot convert undefined or null to object")
  | Json.object fields => Except.ok (fields.map (·.1))
  | Json.array elems => Except.ok ((List.range elems.length).map toString)
  | Json.str s => Except.ok ((List.range s.length).map toString)
  | Json.boolean _ => Except.ok []
  | Json.number _ => Except.ok []

/-- Lines 188-193: `reviewers.map(o => keys(o)[0] ?? null).filter(u => u !== null)`,
with the `TypeError` a `null` element raises propagating out. -/
def extractUsernames : List Json → Except JsFailure (List String)
  | [] => Except.ok []
  | j :: rest =>
    match jsObjectKeys j with
    | Except.error e => Except.error e
    | Except.ok ks =>
      match extractUsernames rest with
      | Except.error e => Except.error e
      | Except.ok r =>
        match ks with
        | [] => Except.ok r
        | k :: _ => Except.ok (k :: r)

/-- What fetching and `JSON.parse`-ing `reviewers.json` yields: a 404, a
parse failure, or a parsed JSON value. -/
inductive ReviewersFetch where
  | notFound
  | malformed
  | content (j : Json)

/-- The failure modes of `getReviewers`. -/
inductive ReviewersError where
  /-- 404 translated to "reviewers.json file not found in the main branch". -/
  | notFoundError
  /-- `JSON.parse` threw; rethrown as-is by the catch (no `.status`). -/
  | parseError
  /-- "Reviewers file must contain an array of objects". -/
  | notArrayError
  /-- A `TypeError` etc. from inside the extraction, rethrown as-is. -/
  | jsThrow (e : JsFailure)
  /-- "No valid reviewers found in reviewers.json". -/
  | noReviewersError
  deriving DecidableEq

/-- `getReviewers` (lines 164-206): fail on 404, on a parse error, when the
parsed content is not an array, or when zero usernames are extracted;
otherwise return the extracted username list. -/
def getReviewers : ReviewersFetch → Except ReviewersError (List String)
  | ReviewersFetch.notFound => Except.error ReviewersError.notFoundError
  | ReviewersFetch.malformed => Except.error ReviewersError.parseError
  | ReviewersFetch.content j =>
    match j with
    | Json.array elems =>
      match extractUsernames elems with
      | Except.error e => Except.error (ReviewersError.jsThrow e)
      | Except.ok [] => Except.error ReviewersError.noReviewersError
      | Except.ok usernames => Except.ok usernames
    | _ => Except.error ReviewersError.notArrayError

/-- The first key `Object.keys` would report for a non-`null` JSON value, if
any: what one array element contributes to the username list. -/
def firstKeyOf : Json → Option String
  | Json.object fields => (fields.map (·.1)).head?
  | Json.array elems => if elems.length = 0 then none else some "0"
  | Json.str s => if s.length = 0 then none else some "0"
  | _ => none

/-! ## Approval scanner (`checkFileApproval`, lines 800-907)

Strings are manipulated at the character-list level, mirroring the JS string
methods used by the source: `split("\n")`, `includes`, `trim`,
`toLowerCase`, `String.prototype.replace` with a string pattern (first
occurrence only) and with the fixed regex `- name\s*"?([^"]*)"?` (written
between slashes in the source)
(first match, replaced by its capture group).  Whitespace and case mapping
are modelled over ASCII, which covers the label syntax the scanner targets. -/

/-- Does `pat` occur at the very start of `s`? -/
def leadsList (pat s : List Char) : Bool :=
  match pat, s with
  | [], _ => true
  | _ :: _, [] => false
  | p :: ps, c :: cs => p == c && leadsList ps cs

/-- JS `s.includes(pat)`: `pat` occurs contiguously somewhere in `s`. -/
def containsSub (s pat : List Char) : Bool :=
  match s with
  | [] => leadsList pat []
  | _ :: cs => leadsList pat s || containsSub cs pat

/-- JS `s.split("\n")` on character lists (an empty string yields `[""]`,
a trailing newline yields a trailing `""`). -/
def splitNl : List Char → List (List Char)
  | [] => [[]]
  | c :: cs =>
    if c = '\n' then [] :: splitNl cs
    else
      match splitNl cs with
      | [] => [[c]]
      | h :: t => (c :: h) :: t

/-- ASCII whitespace as matched by `\s` and trimmed by `trim`. -/
def jsSpace (c : Char) : Bool :=
  c == ' ' || c == '\t' || c == '\n' || c == '\r' || c == '\x0b' || c == '\x0c'

/-- Split off the longest prefix satisfying `p`. -/
def takeWhileL (p : Char → Bool) : List Char → List Char × List Char
  | [] => ([], [])
  | c :: cs =>
    if p c then
      let r := takeWhileL p cs
      (c :: r.1, r.2)
    else ([], c :: cs)

/-- JS `s.trim()` (over ASCII whitespace). -/
def jsTrimL (l : List Char) : List Char :=
  ((takeWhileL jsSpace ((takeWhileL jsSpace l).2.reverse)).2).reverse

/-- JS `s.toLowerCase()` (over ASCII). -/
def jsToLowerL (l : List Char) : List Char :=
  l.map Char.toLower

/-- The literal part `- name` of the label regex. -/
def namePat : List Char := ['-', ' ', 'n', 'a', 'm', 'e']

/-- The tail `\s*"?([^"]*)"?` of the label regex, matched greedily at the
start of `s`: returns the capture group and what is left of `s` after the
match. -/
def nameTailMatch (s : List Char) : List Char × List Char :=
  let s1 := (takeWhileL jsSpace s).2
  let s2 := match s1 with
    | '"' :: cs => cs
    | _ => s1
  let cap := takeWhileL (fun c => !(c == '"')) s2
  let s4 := match cap.2 with
    | '"' :: cs => cs
    | _ => cap.2
  (cap.1, s4)

/-- JS `s.replace(regex, "$1")` for the regex `- name\s*"?([^"]*)"?`:
rewrite the leftmost match of the regex to its capture group, leaving `s`
unchanged when the regex does not match. -/
def replaceNameRegex : List Char → List Char
  | [] => []
  | c :: cs =>
    if leadsList namePat (c :: cs) then
      let m := nameTailMatch ((c :: cs).drop namePat.length)
      m.1 ++ m.2
    else c :: replaceNameRegex cs

/-- JS `s.replace(pat, "")` with a string pattern: remove the first
occurrence of `pat`, if any. -/
def removeFirstL (pat : List Char) : List Char → List Char
  | [] => []
  | c :: cs =>
    if leadsList pat (c :: cs) then (c :: cs).drop pat.length
    else c :: removeFirstL pat cs

/-- Lines 847-852: the normalized comparison token of a (trimmed) label
line — `"approved-" + label` with the regex match replaced by its capture,
the first `": "` and the first quote removed, trimmed and lowercased. -/
def approvedToken (label : List Char) : List Char :=
  jsToLowerL (jsTrimL (removeFirstL ['"']
    (removeFirstL [':', ' '] (replaceNameRegex ("approved-".data ++ label)))))

/-- Lines 877-881: the cleaned label name pushed with an approved record
(`replace(regex, "$1").replace(": ", "").replace(quote, "").trim()`). -/
def cleanLabelApproved (label : List Char) : List Char :=
  jsTrimL (removeFirstL ['"'] (removeFirstL [':', ' '] (replaceNameRegex label)))

/-- Lines 889-894: the cleaned label name pushed with an unapproved record —
same pieces, with the quote removed before `": "`. -/
def cleanLabelUnapproved (label : List Char) : List Char :=
  jsTrimL (removeFirstL [':', ' '] (removeFirstL ['"'] (replaceNameRegex label)))

/-- A pull-request review comment as used by the scanner
(`comment.path`, `comment.user.login`, `comment.body`, `comment.created_at`,
`comment.id`, `comment.html_url`). -/
structure RComment where
  path : String
  login : String
  body : String
  createdAt : String
  commentId : Nat
  htmlUrl : String
  deriving DecidableEq

/-- Environment of one `checkFileApproval` run: the raw file text fetched at
the branch, the pull request's review comments, the reviewer allow-list
returned by `getReviewers`, and the already-decoded file path. -/
structure ApprovalEnv where
  fileContent : String
  comments : List RComment
  reviewers : List String
  decodedFilePath : String
  deriving DecidableEq

/-- Lines 821-824: the label lines — every line of the file containing
`- name`, paired with its 1-based line number. -/
def linesWithName (content : String) : List (List Char × Nat) :=
  (((splitNl content.data).enum).map (fun p => (p.2, p.1 + 1))).filter
    (fun p => containsSub p.1 namePat)

/-- Lines 855-863: does this comment approve the label line with the given
normalized token? (`comment.path === decodedFilePath && isReviewer &&
comment.body.trim().toLowerCase().includes(labelToCompare)`). -/
def commentMatches (env : ApprovalEnv) (token : List Char) (c : RComment) : Bool :=
  c.path == env.decodedFilePath && env.reviewers.contains c.login &&
    containsSub (jsToLowerL (jsTrimL c.body.data)) token

/-- An element of `approvedLabels` (lines 876-887). -/
structure ApprovedLabel where
  label : List Char
  lineNumber : Nat
  reviewer : String
  timestamp : String
  commentId : Nat
  commentUrl : String
  deriving DecidableEq

/-- An element of `unapprovedLabels` (lines 888-896). -/
structure UnapprovedLabel where
  label : List Char
  lineNumber : Nat
  deriving DecidableEq

/-- Lines 845-898: the `forEach` over the label lines, building the approved
and unapproved lists in line order.  The first comment satisfying
`commentMatches` (JS `comments.find`) supplies the reviewer metadata. -/
def scanLines (env : ApprovalEnv) :
    List (List Char × Nat) → List ApprovedLabel × List UnapprovedLabel
  | [] => ([], [])
  | p :: rest =>
    let tail := scanLines env rest
    let label := jsTrimL p.1
    match env.comments.find? (commentMatches env (approvedToken label)) with
    | some c =>
      (⟨cleanLabelApproved label, p.2, c.login, c.createdAt, c.commentId,
        c.htmlUrl⟩ :: tail.1, tail.2)
    | none => (tail.1, ⟨cleanLabelUnapproved label, p.2⟩ :: tail.2)

/-- The value returned by `checkFileApproval` (lines 900-906). -/
structure ApprovalResult where
  approved : Bool
  approvedLabels : List ApprovedLabel
  unapprovedLabels : List UnapprovedLabel
  eligibleReviewers : List String
  checkedFile : String
  deriving DecidableEq

/-- `checkFileApproval` (lines 800-907): scan the label lines against the
comments and report
`approved = (unapprovedLabels.length === 0 && approvedLabels.length > 0)`. -/
def checkFileApproval (env : ApprovalEnv) : ApprovalResult :=
  let scanned := scanLines env (linesWithName env.fileContent)
  { approved := scanned.2.isEmpty && !scanned.1.isEmpty
    approvedLabels := scanned.1
    unapprovedLabels := scanned.2
    eligibleReviewers := env.reviewers
    checkedFile := env.decodedFilePath }

/-! ## Generic instances and helper lemmas -/

instance {ε α : Type} [DecidableEq ε] [DecidableEq α] : DecidableEq (Except ε α) := fun x y =>
  match x, y with
  | Except.ok a, Except.ok b =>
    if h : a = b then isTrue (by rw [h])
    else isFalse (fun hh => by cases hh; exact h rfl)
  | Except.error a, Except.error b =>
    if h : a = b then isTrue (by rw [h])
    else isFalse (fun hh => by cases hh; exact h rfl)
  | Except.ok _, Except.error _ => isFalse (fun hh => by cases hh)
  | Except.error _, Except.ok _ => isFalse (fun hh => by cases hh)

/-! ## C1: `updateFileWithTranslations` always throws a `ReferenceError` -/

/-- C1: for every input, `updateFileWithTranslations` reaches the
serialization step, where the call to `stringify` — a name the module
`src/services/githubService.js` never imports or declares — throws a
`ReferenceError`; consequently the PUT commit request is never issued. -/
theorem updateFile_stringify_referenceError (env : UpdateEnv) :
    (updateFileWithTranslationsRun env).2 =
      Except.error (JsFailure.referenceError "stringify") ∧
    ∀ path branch,
      RemoteCall.putContents path branch ∉ (updateFileWithTranslationsRun env).1 := by
  have h : "stringify" ∉ githubServiceModuleScope := by decide
  refine ⟨?_, ?_⟩
  · simp [updateFileWithTranslationsRun, h]
  · intro p b
    simp [updateFileWithTranslationsRun, h]

/-- Closed instance of `updateFile_stringify_referenceError` at a concrete
environment. -/
theorem updateFile_stringify_referenceError_witness :
    (updateFileWithTranslationsRun ⟨"r", "b", "f.yml", [], ⟨[], []⟩⟩).2 =
      Except.error (JsFailure.referenceError "stringify") ∧
    RemoteCall.putContents "f.yml" "b" ∉
      (updateFileWithTranslationsRun ⟨"r", "b", "f.yml", [], ⟨[], []⟩⟩).1 :=
  ⟨(updateFile_stringify_referenceError ⟨"r", "b", "f.yml", [], ⟨[], []⟩⟩).1,
    (updateFile_stringify_referenceError ⟨"r", "b", "f.yml", [], ⟨[], []⟩⟩).2 "f.yml" "b"⟩

/-! ## C4: `mergeBranch` call ordering -/

/-- C4: when a pull request exists, a non-mergeable pull request raises the
400 "Not Mergeable" domain error with no merge call attempted; a mergeable
draft pull request is marked ready for review strictly before the merge
call; and the branch-deletion call happens exactly when the merge response
confirms `merged` (and then strictly after the merge call), while an
unconfirmed merge raises the 400 "Merge Failed" error. -/
theorem mergeBranch_order_spec (env : MergeEnv) (h : env.pulls ≠ []) :
    (env.mergeable = false →
      (mergeBranch env).2 =
        Except.error
          ⟨400, "The pull request is not mergeable. Please check for conflicts.",
            "Not Mergeable"⟩ ∧
      ∀ n, RemoteCall.mergePull n ∉ (mergeBranch env).1) ∧
    (env.mergeable = true → env.draft = true →
      ∃ i j : Nat, i < j ∧ (mergeBranch env).1[i]? = some RemoteCall.markReady ∧
        ∃ n, (mergeBranch env).1[j]? = some (RemoteCall.mergePull n)) ∧
    (env.mergeable = true →
      ((RemoteCall.deleteBranch ∈ (mergeBranch env).1) ↔ env.merged = true) ∧
      (env.merged = false →
        (mergeBranch env).2 =
          Except.error
            ⟨400, "The merge operation could not be completed.", "Merge Failed"⟩) ∧
      (env.merged = true →
        ∃ i j n : Nat, i < j ∧ (mergeBranch env).1[i]? = some (RemoteCall.mergePull n) ∧
          (mergeBranch env).1[j]? = some RemoteCall.deleteBranch)) := by
  obtain ⟨pr, rest, hp⟩ := List.exists_cons_of_ne_nil h
  refine ⟨?_, ?_, ?_⟩
  · intro hm
    simp [mergeBranch, hp, hm]
  · intro hm hd
    cases hmg : env.merged
    · exact ⟨2, 3, by omega, by simp [mergeBranch, hp, hm, hd, hmg],
        pr, by simp [mergeBranch, hp, hm, hd, hmg]⟩
    · exact ⟨2, 3, by omega, by simp [mergeBranch, hp, hm, hd, hmg],
        pr, by simp [mergeBranch, hp, hm, hd, hmg]⟩
  · intro hm
    refine ⟨?_, ?_, ?_⟩
    · cases hmg : env.merged
      · cases hd : env.draft <;> simp [mergeBranch, hp, hm, hd, hmg]
      · cases hd : env.draft <;> simp [mergeBranch, hp, hm, hd, hmg]
    · intro hmg
      cases hd : env.draft <;> simp [mergeBranch, hp, hm, hd, hmg]
    · intro hmg
      cases hd : env.draft
      · exact ⟨2, 3, pr, by omega, by simp [mergeBranch, hp, hm, hd, hmg],
          by simp [mergeBranch, hp, hm, hd, hmg]⟩
      · exact ⟨3, 4, pr, by omega, by simp [mergeBranch, hp, hm, hd, hmg],
          by simp [mergeBranch, hp, hm, hd, hmg]⟩

/-- Closed instance of `mergeBranch_order_spec`: a mergeable draft pull
request that merges successfully is marked ready before merge and deleted
after it, and a non-mergeable one on the same branch issues no merge call. -/
theorem mergeBranch_order_spec_witness :
    (∃ i j : Nat, i < j ∧ (mergeBranch ⟨"b", [5], true, true, true⟩).1[i]? = some RemoteCall.markReady ∧
      ∃ n, (mergeBranch ⟨"b", [5], true, true, true⟩).1[j]? = some (RemoteCall.mergePull n)) ∧
    (∀ n, RemoteCall.mergePull n ∉ (mergeBranch ⟨"b", [5], false, true, true⟩).1) :=
  ⟨((mergeBranch_order_spec ⟨"b", [5], true, true, true⟩ (by decide)).2.1 rfl rfl),
    ((mergeBranch_order_spec ⟨"b", [5], false, true, true⟩ (by decide)).1 rfl).2⟩

/-! ## C5: `getChangedFiles` with no existing pull request -/

/-- C5: with no open pull request for the branch, a comparison reporting
`ahead_by === 0` yields the no-changes signal with no pull-request creation
call, while a strictly positive `ahead_by` creates a draft pull request and
proceeds with the created pull request's number. -/
theorem getChangedFiles_noPull_spec (env : ChangedEnv) (h : env.pulls = []) :
    (env.aheadBy = 0 →
      (getChangedFiles env).2 = ChangedResult.noChanges ∧
      ∀ d, RemoteCall.createPull d ∉ (getChangedFiles env).1) ∧
    (0 < env.aheadBy →
      RemoteCall.createPull true ∈ (getChangedFiles env).1 ∧
      (getChangedFiles env).2 = ChangedResult.payload env.createdNumber ∧
      RemoteCall.listPullFiles env.createdNumber ∈ (getChangedFiles env).1) := by
  refine ⟨?_, ?_⟩
  · intro h0
    refine ⟨by simp [getChangedFiles, h, h0], ?_⟩
    intro d
    simp [getChangedFiles, h, h0]
  · intro hpos
    have h0 : ¬env.aheadBy = 0 := by omega
    refine ⟨?_, ?_, ?_⟩ <;> simp [getChangedFiles, h, h0]

/-- Closed instance of `getChangedFiles_noPull_spec` in both regimes
(`ahead_by = 0` and `ahead_by = 2`). -/
theorem getChangedFiles_noPull_spec_witness :
    ((getChangedFiles ⟨[], 0, 7⟩).2 = ChangedResult.noChanges ∧
      RemoteCall.createPull true ∉ (getChangedFiles ⟨[], 0, 7⟩).1) ∧
    (RemoteCall.createPull true ∈ (getChangedFiles ⟨[], 2, 7⟩).1 ∧
      (getChangedFiles ⟨[], 2, 7⟩).2 = ChangedResult.payload 7) :=
  ⟨⟨((getChangedFiles_noPull_spec ⟨[], 0, 7⟩ rfl).1 rfl).1,
      ((getChangedFiles_noPull_spec ⟨[], 0, 7⟩ rfl).1 rfl).2 true⟩,
    ⟨((getChangedFiles_noPull_spec ⟨[], 2, 7⟩ rfl).2 (by decide)).1,
      ((getChangedFiles_noPull_spec ⟨[], 2, 7⟩ rfl).2 (by decide)).2.1⟩⟩

/-! ## C8: merging an empty translations map is the identity -/

/-- C8: applying the translation-merge step with an empty incoming map
changes nothing — every label, language entry and other field of the
document is returned unchanged (and no warning is logged). -/
theorem applyTranslations_empty_identity (d : TranslationDoc) :
    applyTranslations d [] = (d, []) := by
  have happ : ∀ l : Label, applyLabel ([] : TranslationsMap) l = (l, []) := fun _ => rfl
  have h1 : ∀ ls : List Label, (ls.map (applyLabel [])).map (fun x => x.1) = ls := by
    intro ls
    induction ls with
    | nil => rfl
    | cons a t ih => simp [happ, ih]
  have h2 : ∀ ls : List Label,
      ((ls.map (applyLabel [])).map (fun x => x.2)).flatten = [] := by
    intro ls
    induction ls with
    | nil => rfl
    | cons a t ih => simp [happ, ih]
  simp only [applyTranslations, h1, h2]

/-! ## C10: a shared-key match can report a conflict on a missing language -/

/-- C10: when the reference entry holds a language (here `en`) that the
matched branch entry (matched because it shares `fr`) lacks, `getConflicts`
reports a conflict for that language whose branch value is the undefined
value, rather than skipping the pair. -/
theorem getConflicts_missingLanguage_conflict :
    fileConflicts
        ⟨[⟨"x", [[("fr", "a"), ("en", "b")]], []⟩], []⟩
        ⟨[⟨"x", [[("fr", "a")]], []⟩], []⟩ =
      [⟨"x", "en", "b", none⟩] := by decide

/-! ## C3: the returned list is all common files or nothing (corrected) -/

/-- C3 counterexample: with one conflicting common file (`a.yml`) and one
conflict-free common file (`b.yml`), the non-empty result of `getConflicts`
still contains the entry for `b.yml`, whose per-file conflict list is
empty — contradicting "every element of the returned list is a file that has
at least one conflict". -/
theorem getConflicts_empty_entry_counterexample :
    getConflictsFromContents
        [("a.yml", ⟨[⟨"t", [[("fr", "x")]], []⟩], []⟩, ⟨[⟨"t", [[("fr", "y")]], []⟩], []⟩),
          ("b.yml", ⟨[⟨"t", [[("fr", "x")]], []⟩], []⟩, ⟨[⟨"t", [[("fr", "x")]], []⟩], []⟩)] ≠
        [] ∧
    FileConflicts.mk "b.yml" [] ∈
      getConflictsFromContents
        [("a.yml", ⟨[⟨"t", [[("fr", "x")]], []⟩], []⟩, ⟨[⟨"t", [[("fr", "y")]], []⟩], []⟩),
          ("b.yml", ⟨[⟨"t", [[("fr", "x")]], []⟩], []⟩, ⟨[⟨"t", [[("fr", "x")]], []⟩], []⟩)] := by
  decide

/-- C3 amended: the result of `getConflicts` is empty exactly when no common
file has a conflict; as soon as one common file has a conflict, the result
is the whole per-file list — one entry for every common file, including
those whose conflict list is empty. -/
theorem getConflicts_result_allOrNothing
    (files : List (String × TranslationDoc × TranslationDoc)) :
    (getConflictsFromContents files = [] ↔
      ∀ f ∈ files, fileConflicts f.2.1 f.2.2 = []) ∧
    (getConflictsFromContents files ≠ [] →
      getConflictsFromContents files =
        files.map (fun f => ⟨f.1, fileConflicts f.2.1 f.2.2⟩)) := by
  by_cases hb :
      (files.map (fun f => FileConflicts.mk f.1 (fileConflicts f.2.1 f.2.2))).any
        (fun fc => !fc.conflicts.isEmpty) = true
  · have hres : getConflictsFromContents files =
        files.map (fun f => FileConflicts.mk f.1 (fileConflicts f.2.1 f.2.2)) := by
      simp only [getConflictsFromContents]
      rw [if_pos hb]
    obtain ⟨fc, hfc, hne⟩ := List.any_eq_true.mp hb
    obtain ⟨f, hf, rfl⟩ := List.mem_map.mp hfc
    refine ⟨⟨fun hnil => ?_, fun hall => ?_⟩, fun _ => hres⟩
    · rw [hres] at hnil
      rw [List.map_eq_nil_iff.mp hnil] at hf
      exact absurd hf (List.not_mem_nil f)
    · rw [hall f hf] at hne
      simp at hne
  · have hres : getConflictsFromContents files = [] := by
      simp only [getConflictsFromContents]
      rw [if_neg hb]
    refine ⟨⟨fun _ => ?_, fun _ => hres⟩, fun hne => absurd hres hne⟩
    intro f hf
    by_contra hcon
    exact hb (List.any_eq_true.mpr
      ⟨FileConflicts.mk f.1 (fileConflicts f.2.1 f.2.2), List.mem_map.mpr ⟨f, hf, rfl⟩,
        by simpa using hcon⟩)

/-- Closed instance of `getConflicts_result_allOrNothing`: the two-file input
of the counterexample evaluates to the full per-file list. -/
theorem getConflicts_result_allOrNothing_witness :
    getConflictsFromContents
        [("a.yml", ⟨[⟨"t", [[("fr", "x")]], []⟩], []⟩, ⟨[⟨"t", [[("fr", "y")]], []⟩], []⟩),
          ("c.yml", ⟨[⟨"t", [[("fr", "x")]], []⟩], []⟩, ⟨[⟨"t", [[("fr", "x")]], []⟩], []⟩)] =
      [⟨"a.yml", [⟨"t", "fr", "x", some "y"⟩]⟩, ⟨"c.yml", []⟩] :=
  ((getConflicts_result_allOrNothing
      [("a.yml", ⟨[⟨"t", [[("fr", "x")]], []⟩], []⟩, ⟨[⟨"t", [[("fr", "y")]], []⟩], []⟩),
        ("c.yml", ⟨[⟨"t", [[("fr", "x")]], []⟩], []⟩,
          ⟨[⟨"t", [[("fr", "x")]], []⟩], []⟩)]).2 (by decide)).trans (by decide)

/-! ## C9: `getReviewers` failure modes (corrected) -/

/-- For a non-`null` JSON value, `Object.keys` succeeds and its first key is
`firstKeyOf`. -/
theorem jsObjectKeys_head (j : Json) (h : j ≠ Json.null) :
    ∃ ks, jsObjectKeys j = Except.ok ks ∧ ks.head? = firstKeyOf j := by
  cases j with
  | null => exact absurd rfl h
  | boolean b => exact ⟨[], rfl, rfl⟩
  | number n => exact ⟨[], rfl, rfl⟩
  | str s =>
    refine ⟨(List.range s.length).map toString, rfl, ?_⟩
    cases hs : s.length with
    | zero => simp [firstKeyOf, hs]
    | succ n =>
      have h0 : toString (0 : Nat) = "0" := rfl
      simp [firstKeyOf, hs, List.range_succ_eq_map, h0]
  | array elems =>
    refine ⟨(List.range elems.length).map toString, rfl, ?_⟩
    cases hs : elems.length with
    | zero => simp [firstKeyOf, hs]
    | succ n =>
      have h0 : toString (0 : Nat) = "0" := rfl
      simp [firstKeyOf, hs, List.range_succ_eq_map, h0]
  | object fields => exact ⟨fields.map Prod.fst, rfl, rfl⟩

/-- With no `null` element, username extraction succeeds and collects the
first key of every element that has one. -/
theorem extractUsernames_ok (es : List Json) (h : Json.null ∉ es) :
    extractUsernames es = Except.ok (es.filterMap firstKeyOf) := by
  induction es with
  | nil => rfl
  | cons j rest ih =>
    have hj : j ≠ Json.null := fun hj => h (hj ▸ List.mem_cons_self j rest)
    have hrest : Json.null ∉ rest := fun hr => h (List.mem_cons_of_mem j hr)
    obtain ⟨ks, hks, hhead⟩ := jsObjectKeys_head j hj
    cases hk : firstKeyOf j with
    | none =>
      have hnil : ks = [] := by
        cases ks with
        | nil => rfl
        | cons a t => rw [hk] at hhead; exact absurd hhead (by simp)
      subst hnil
      simp [extractUsernames, hks, ih hrest, List.filterMap_cons, hk]
    | some k =>
      obtain ⟨t, ht⟩ : ∃ t, ks = k :: t := by
        cases ks with
        | nil => rw [hk] at hhead; exact absurd hhead (by simp)
        | cons a t =>
          rw [hk] at hhead
          simp only [List.head?_cons, Option.some.injEq] at hhead
          exact ⟨t, by rw [hhead]⟩
      subst ht
      simp [extractUsernames, hks, ih hrest, List.filterMap_cons, hk]

/-- A `null` element makes username extraction throw. -/
theorem extractUsernames_null (es : List Json) (h : Json.null ∈ es) :
    ∃ e, extractUsernames es = Except.error e := by
  induction es with
  | nil => exact absurd h (List.not_mem_nil _)
  | cons j rest ih =>
    by_cases hj : j = Json.null
    · subst hj
      exact ⟨JsFailure.typeError "Cannot convert undefined or null to object", rfl⟩
    · have hrest : Json.null ∈ rest := by
        rcases List.mem_cons.mp h with h1 | h2
        · exact absurd h1.symm hj
        · exact h2
      obtain ⟨ks, hks, _⟩ := jsObjectKeys_head j hj
      obtain ⟨e, he⟩ := ih hrest
      refine ⟨e, ?_⟩
      simp [extractUsernames, hks, he]

/-- C9 counterexample: an array whose only element is a two-key object —
which does not "consist of single-key objects" — makes `getReviewers`
succeed with the first key, instead of failing as the claim requires. -/
theorem getReviewers_multiKey_counterexample :
    getReviewers
        (ReviewersFetch.content
          (Json.array [Json.object [("alice", Json.null), ("extra", Json.null)]])) =
      Except.ok ["alice"] ∧
    ∀ e,
      getReviewers
          (ReviewersFetch.content
            (Json.array [Json.object [("alice", Json.null), ("extra", Json.null)]])) ≠
        Except.error e := by
  refine ⟨rfl, ?_⟩
  intro e h
  rw [show getReviewers
      (ReviewersFetch.content
        (Json.array [Json.object [("alice", Json.null), ("extra", Json.null)]])) =
      Except.ok ["alice"] from rfl] at h
  simp at h

/-- C9 amended: `getReviewers` fails when the manifest is absent, does not
parse, is not an array, contains a `null` element (whose `Object.keys`
throws), or yields zero usernames; otherwise it returns the non-empty list
of the first key of every element that has at least one key — elements
without keys are skipped and multi-key objects contribute their first key
rather than causing a failure. -/
theorem getReviewers_amended_spec (f : ReviewersFetch) :
    (f = ReviewersFetch.notFound →
      getReviewers f = Except.error ReviewersError.notFoundError) ∧
    (f = ReviewersFetch.malformed →
      getReviewers f = Except.error ReviewersError.parseError) ∧
    (∀ j, f = ReviewersFetch.content j → (∀ es, j ≠ Json.array es) →
      getReviewers f = Except.error ReviewersError.notArrayError) ∧
    (∀ es, f = ReviewersFetch.content (Json.array es) → Json.null ∈ es →
      ∃ e, getReviewers f = Except.error (ReviewersError.jsThrow e)) ∧
    (∀ es, f = ReviewersFetch.content (Json.array es) → Json.null ∉ es →
      (es.filterMap firstKeyOf = [] →
        getReviewers f = Except.error ReviewersError.noReviewersError) ∧
      (es.filterMap firstKeyOf ≠ [] →
        getReviewers f = Except.ok (es.filterMap firstKeyOf))) := by
  refine ⟨fun hf => by rw [hf]; rfl, fun hf => by rw [hf]; rfl, ?_, ?_, ?_⟩
  · intro j hf hj
    subst hf
    cases j with
    | array es => exact absurd rfl (hj es)
    | null => rfl
    | boolean b => rfl
    | number n => rfl
    | str s => rfl
    | object fields => rfl
  · intro es hf hnull
    subst hf
    obtain ⟨e, he⟩ := extractUsernames_null es hnull
    exact ⟨e, by simp [getReviewers, he]⟩
  · intro es hf hnull
    subst hf
    have hok := extractUsernames_ok es hnull
    constructor
    · intro hempty
      simp [getReviewers, hok, hempty]
    · intro hne
      cases hl : es.filterMap firstKeyOf with
      | nil => exact absurd hl hne
      | cons a t =>
        rw [hl] at hok
        simp [getReviewers, hok, hl]

/-- Closed instance of `getReviewers_amended_spec`: a missing manifest
fails, and a parsed two-element array with one keyed object and one number
succeeds with that object's first key. -/
theorem getReviewers_amended_spec_witness :
    getReviewers ReviewersFetch.notFound = Except.error ReviewersError.notFoundError ∧
    getReviewers
        (ReviewersFetch.content (Json.array [Json.object [("bob", Json.null)], Json.number 3])) =
      Except.ok ["bob"] := by
  refine ⟨(getReviewers_amended_spec ReviewersFetch.notFound).1 rfl, ?_⟩
  have hnull : Json.null ∉ [Json.object [("bob", Json.null)], Json.number 3] := by
    intro hmem
    rcases List.mem_cons.mp hmem with h1 | h2
    · exact Json.noConfusion h1
    · rcases List.mem_cons.mp h2 with h3 | h4
      · exact Json.noConfusion h3
      · exact absurd h4 (List.not_mem_nil _)
  have h := ((getReviewers_amended_spec
      (ReviewersFetch.content
        (Json.array [Json.object [("bob", Json.null)], Json.number 3]))).2.2.2.2
      [Json.object [("bob", Json.null)], Json.number 3] rfl hnull).2 (by decide)
  exact h.trans rfl

/-! ## C2: characterisation of the reported conflicts -/

/-- Membership in the conflicts of one matched entry pair. -/
theorem mem_entryConflicts (name : String) (syncT branchT : LangEntry) (c : Conflict) :
    c ∈ entryConflicts name syncT branchT ↔
      ∃ p ∈ syncT, (some p.2 ≠ lookupE branchT p.1 ∧ p.2 ≠ "") ∧
        c = ⟨name, p.1, p.2, lookupE branchT p.1⟩ := by
  unfold entryConflicts
  rw [List.mem_filterMap]
  constructor
  · rintro ⟨p, hp, hf⟩
    by_cases hc : some p.2 ≠ lookupE branchT p.1 ∧ p.2 ≠ ""
    · rw [if_pos hc] at hf
      injection hf with hf
      exact ⟨p, hp, hc, hf.symm⟩
    · rw [if_neg hc] at hf
      cases hf
  · rintro ⟨p, hp, hc, rfl⟩
    exact ⟨p, hp, by rw [if_pos hc]⟩

/-- Membership in the conflicts of one reference-side label. -/
theorem mem_labelConflicts (branchLabels : List Label) (syncLabel : Label) (c : Conflict) :
    c ∈ labelConflicts branchLabels syncLabel ↔
      ∃ branchLabel,
        branchLabels.find? (fun l => l.name == syncLabel.name) = some branchLabel ∧
        ∃ syncT ∈ syncLabel.translations,
          ∃ branchT, branchLabel.translations.find? (entryMatches syncT) = some branchT ∧
            c ∈ entryConflicts syncLabel.name syncT branchT := by
  unfold labelConflicts
  cases hf : branchLabels.find? (fun l => l.name == syncLabel.name) with
  | none => simp
  | some bl =>
    simp only [List.mem_flatMap]
    constructor
    · rintro ⟨st, hst, hc⟩
      cases hft : bl.translations.find? (entryMatches st) with
      | none => rw [hft] at hc; cases hc
      | some bt => rw [hft] at hc; exact ⟨bl, rfl, st, hst, bt, hft, hc⟩
    · rintro ⟨bl', hbl', st, hst, bt, hft, hc⟩
      injection hbl' with hbl'
      subst hbl'
      exact ⟨st, hst, by rw [hft]; exact hc⟩

/-- C2: a conflict `c` is reported for a (label, language) pair iff the
reference side has a label of that name that the branch side also has (first
match by name), the branch label has a translation entry sharing at least
one language key with the reference entry (first such entry), the reference
value for that language differs from the matched branch entry's value, and
the reference value is non-empty; in particular no reported conflict carries
an empty reference value. -/
theorem getConflicts_entry_iff (s b : TranslationDoc) (c : Conflict) :
    (c ∈ fileConflicts s b ↔
      ∃ syncLabel ∈ s.labels,
        ∃ branchLabel,
          b.labels.find? (fun l => l.name == syncLabel.name) = some branchLabel ∧
          ∃ syncT ∈ syncLabel.translations,
            ∃ branchT,
              branchLabel.translations.find? (entryMatches syncT) = some branchT ∧
              ∃ p ∈ syncT, (some p.2 ≠ lookupE branchT p.1 ∧ p.2 ≠ "") ∧
                c = ⟨syncLabel.name, p.1, p.2, lookupE branchT p.1⟩) ∧
    ∀ c' ∈ fileConflicts s b, c'.syncValue ≠ "" := by
  have hiff : ∀ c0 : Conflict,
      c0 ∈ fileConflicts s b ↔
        ∃ syncLabel ∈ s.labels,
          ∃ branchLabel,
            b.labels.find? (fun l => l.name == syncLabel.name) = some branchLabel ∧
            ∃ syncT ∈ syncLabel.translations,
              ∃ branchT,
                branchLabel.translations.find? (entryMatches syncT) = some branchT ∧
                ∃ p ∈ syncT, (some p.2 ≠ lookupE branchT p.1 ∧ p.2 ≠ "") ∧
                  c0 = ⟨syncLabel.name, p.1, p.2, lookupE branchT p.1⟩ := by
    intro c0
    unfold fileConflicts
    rw [List.mem_flatMap]
    simp only [mem_labelConflicts, mem_entryConflicts]
  refine ⟨hiff c, ?_⟩
  intro c' hc'
  obtain ⟨sl, _, bl, _, st, _, bt, _, p, _, ⟨_, hne⟩, rfl⟩ := (hiff c').mp hc'
  exact hne

/-- Closed instance of `getConflicts_entry_iff`: the specification's own
example — reference `fr: chaleur` against branch `fr: chaud` for label
`temperature` — is reported as a conflict. -/
theorem getConflicts_entry_iff_witness :
    Conflict.mk "temperature" "fr" "chaleur" (some "chaud") ∈
      fileConflicts ⟨[⟨"temperature", [[("fr", "chaleur")]], []⟩], []⟩
        ⟨[⟨"temperature", [[("fr", "chaud")]], []⟩], []⟩ :=
  ((getConflicts_entry_iff
      ⟨[⟨"temperature", [[("fr", "chaleur")]], []⟩], []⟩
      ⟨[⟨"temperature", [[("fr", "chaud")]], []⟩], []⟩
      (Conflict.mk "temperature" "fr" "chaleur" (some "chaud"))).1).mpr
    ⟨⟨"temperature", [[("fr", "chaleur")]], []⟩, List.mem_singleton.mpr rfl,
      ⟨"temperature", [[("fr", "chaud")]], []⟩, rfl,
      [("fr", "chaleur")], List.mem_singleton.mpr rfl,
      [("fr", "chaud")], rfl,
      ("fr", "chaleur"), List.mem_singleton.mpr rfl,
      ⟨by decide, by decide⟩, rfl⟩

/-! ## C7: the merge step is label/language-scoped and shape-preserving -/

/-- `setLang` never changes the key sequence of an entry. -/
theorem setLang_keys (t : LangEntry) (lang term : String) :
    (setLang t lang term).map Prod.fst = t.map Prod.fst := by
  induction t with
  | nil => rfl
  | cons p rest ih =>
    by_cases h : p.1 == lang
    · simp [setLang, h]
    · simp [setLang, h, ih]

/-- Unfolding `hasLang` over a cons cell. -/
theorem hasLang_cons (p : String × String) (rest : LangEntry) (k : String) :
    hasLang (p :: rest) k = ((p.1 == k) || hasLang rest k) := by
  by_cases h : p.1 == k
  · simp [hasLang, lookupE, List.find?_cons_of_pos _ h, h]
  · simp [hasLang, lookupE, List.find?_cons_of_neg _ h, h]

/-- Whether an entry owns a language depends only on its key sequence. -/
theorem hasLang_eq_keys (t : LangEntry) (k : String) :
    hasLang t k = (t.map Prod.fst).any (fun a => a == k) := by
  induction t with
  | nil => rfl
  | cons p rest ih => simp [hasLang_cons, ih]

/-- `applyLangTerm` never changes the per-entry key sequences. -/
theorem applyLangTerm_keys (ts : List LangEntry) (lang term : String) :
    (applyLangTerm ts lang term).1.map (fun t => t.map Prod.fst) =
      ts.map (fun t => t.map Prod.fst) := by
  induction ts with
  | nil => rfl
  | cons t rest ih =>
    by_cases h : hasLang t lang
    · simp [applyLangTerm, h, setLang_keys]
    · simp [applyLangTerm, h, ih]

/-- The found-flag of `applyLangTerm` is exactly "some entry owns the
language" (i.e. the negation of the warning condition). -/
theorem applyLangTerm_flag (ts : List LangEntry) (lang term : String) :
    (applyLangTerm ts lang term).2 = ts.any (fun t => hasLang t lang) := by
  induction ts with
  | nil => rfl
  | cons t rest ih =>
    by_cases h : hasLang t lang
    · simp [applyLangTerm, h]
    · simp [applyLangTerm, h, ih]

/-- Language ownership over a translations list depends only on the key
shape. -/
theorem anyLang_congr {ts ts' : List LangEntry}
    (h : ts.map (fun t => t.map Prod.fst) = ts'.map (fun t => t.map Prod.fst))
    (k : String) :
    ts.any (fun t => hasLang t k) = ts'.any (fun t => hasLang t k) := by
  induction ts generalizing ts' with
  | nil =>
    cases ts' with
    | nil => rfl
    | cons t' rest' => simp at h
  | cons t rest ih =>
    cases ts' with
    | nil => simp at h
    | cons t' rest' =>
      simp only [List.map_cons, List.cons.injEq] at h
      simp only [List.any_cons]
      rw [hasLang_eq_keys t k, hasLang_eq_keys t' k, h.1, ih h.2]

/-- `applyPairs` preserves a label's name, extra fields and key shape. -/
theorem applyPairs_frame (pairs : List (String × String)) (l : Label) :
    (applyPairs l pairs).1.name = l.name ∧ (applyPairs l pairs).1.rest = l.rest ∧
    (applyPairs l pairs).1.translations.map (fun t => t.map Prod.fst) =
      l.translations.map (fun t => t.map Prod.fst) := by
  induction pairs generalizing l with
  | nil => exact ⟨rfl, rfl, rfl⟩
  | cons p rest ih =>
    obtain ⟨h1, h2, h3⟩ := ih { l with
      translations := (applyLangTerm l.translations p.1 p.2).1 }
    exact ⟨h1, h2, by
      simp only [applyPairs]
      rw [h3]
      exact applyLangTerm_keys l.translations p.1 p.2⟩

/-- The warnings of `applyPairs` are exactly the requested pairs whose
language no entry of the label owns. -/
theorem applyPairs_warnings (pairs : List (String × String)) (l : Label) :
    (applyPairs l pairs).2 = pairs.filterMap (fun p =>
      if l.translations.any (fun t => hasLang t p.1) then none
      else some (p.1, l.name)) := by
  induction pairs generalizing l with
  | nil => rfl
  | cons p rest ih =>
    have hkeys := applyLangTerm_keys l.translations p.1 p.2
    have hflag := applyLangTerm_flag l.translations p.1 p.2
    have htail := ih { l with translations := (applyLangTerm l.translations p.1 p.2).1 }
    have hcong : List.filterMap (fun q =>
        if ({ l with translations := (applyLangTerm l.translations p.1 p.2).1
            } : Label).translations.any (fun t => hasLang t q.1) then none
        else some (q.1, ({ l with
          translations := (applyLangTerm l.translations p.1 p.2).1 } : Label).name)) rest =
        List.filterMap (fun q =>
          if l.translations.any (fun t => hasLang t q.1) then none
          else some (q.1, l.name)) rest := by
      apply List.filterMap_congr
      intro q _
      rw [show ({ l with translations := (applyLangTerm l.translations p.1 p.2).1
          } : Label).translations.any (fun t => hasLang t q.1) =
          l.translations.any (fun t => hasLang t q.1) from anyLang_congr hkeys q.1]
    simp only [applyPairs]
    rw [htail, hcong, hflag, List.filterMap_cons]
    by_cases h : l.translations.any (fun t => hasLang t p.1)
    · simp [h]
    · simp [h]

/-- `applyLabel` preserves a label's name, extra fields and key shape. -/
theorem applyLabel_frame (m : TranslationsMap) (l : Label) :
    (applyLabel m l).1.name = l.name ∧ (applyLabel m l).1.rest = l.rest ∧
    (applyLabel m l).1.translations.map (fun t => t.map Prod.fst) =
      l.translations.map (fun t => t.map Prod.fst) := by
  unfold applyLabel
  cases lookupM m l.name with
  | none => exact ⟨rfl, rfl, rfl⟩
  | some pairs => exact applyPairs_frame pairs l

/-- C7: the merge step of `updateFileWithTranslations` only ever overwrites
the term of an existing language entry of a label named by the incoming
map: the document's other fields, every label's name, extra fields and key
shape are preserved (no language slot is ever inserted); labels not named
by the map are returned untouched; a requested language no entry owns
produces a warning and no change; and when some entry owns the language,
the first such entry gets the new term at exactly that key, every other
entry and every other key being untouched. -/
theorem applyTranslations_frame_spec (d : TranslationDoc) (m : TranslationsMap) :
    ((applyTranslations d m).1.rest = d.rest) ∧
    ((applyTranslations d m).1.labels.map Label.name = d.labels.map Label.name) ∧
    ((applyTranslations d m).1.labels.map Label.rest = d.labels.map Label.rest) ∧
    ((applyTranslations d m).1.labels.map
        (fun l => l.translations.map (fun t => t.map Prod.fst)) =
      d.labels.map (fun l => l.translations.map (fun t => t.map Prod.fst))) ∧
    (∀ l ∈ d.labels, lookupM m l.name = none → applyLabel m l = (l, [])) ∧
    (∀ (l : Label) (pairs : List (String × String)),
      (applyPairs l pairs).2 = pairs.filterMap (fun p =>
        if l.translations.any (fun t => hasLang t p.1) then none
        else some (p.1, l.name))) ∧
    (∀ (ts : List LangEntry) (lang term : String),
      (∀ t ∈ ts, hasLang t lang = false) → applyLangTerm ts lang term = (ts, false)) ∧
    (∀ (pre : List LangEntry) (t : LangEntry) (post : List LangEntry) (lang term : String),
      (∀ u ∈ pre, hasLang u lang = false) → hasLang t lang = true →
      applyLangTerm (pre ++ t :: post) lang term =
        (pre ++ setLang t lang term :: post, true)) ∧
    (∀ (t : LangEntry) (lang term : String), hasLang t lang = true →
      lookupE (setLang t lang term) lang = some term) ∧
    (∀ (t : LangEntry) (lang term k : String), k ≠ lang →
      lookupE (setLang t lang term) k = lookupE t k) := by
  refine ⟨rfl, ?_, ?_, ?_, ?_, ?_, ?_, ?_, ?_, ?_⟩
  · have h : ∀ ls : List Label,
        ((ls.map (applyLabel m)).map (fun x => x.1)).map Label.name = ls.map Label.name := by
      intro ls
      induction ls with
      | nil => rfl
      | cons a t ih =>
        simp only [List.map_cons]
        rw [(applyLabel_frame m a).1, ih]
    exact h d.labels
  · have h : ∀ ls : List Label,
        ((ls.map (applyLabel m)).map (fun x => x.1)).map Label.rest = ls.map Label.rest := by
      intro ls
      induction ls with
      | nil => rfl
      | cons a t ih =>
        simp only [List.map_cons]
        rw [(applyLabel_frame m a).2.1, ih]
    exact h d.labels
  · have h : ∀ ls : List Label,
        ((ls.map (applyLabel m)).map (fun x => x.1)).map
            (fun l => l.translations.map (fun t => t.map Prod.fst)) =
          ls.map (fun l => l.translations.map (fun t => t.map Prod.fst)) := by
      intro ls
      induction ls with
      | nil => rfl
      | cons a t ih =>
        simp only [List.map_cons]
        rw [(applyLabel_frame m a).2.2, ih]
    exact h d.labels
  · intro l _ hnone
    unfold applyLabel
    rw [hnone]
  · exact fun l pairs => applyPairs_warnings pairs l
  · intro ts lang term habs
    induction ts with
    | nil => rfl
    | cons t rest ih =>
      have ht : hasLang t lang = false := habs t (List.mem_cons_self t rest)
      have hrest := ih (fun u hu => habs u (List.mem_cons_of_mem t hu))
      simp [applyLangTerm, ht, hrest]
  · intro pre t post lang term hpre ht
    induction pre with
    | nil => simp [applyLangTerm, ht]
    | cons u rest ih =>
      have hu : hasLang u lang = false := hpre u (List.mem_cons_self u rest)
      have hrest := ih (fun v hv => hpre v (List.mem_cons_of_mem u hv))
      simp [applyLangTerm, hu, hrest]
  · intro t lang term ht
    induction t with
    | nil => simp [hasLang, lookupE] at ht
    | cons p rest ih =>
      by_cases h : p.1 == lang
      · simp [setLang, h, lookupE, List.find?_cons_of_pos _ h]
      · rw [hasLang_cons] at ht
        simp only [h, Bool.false_or] at ht
        simp [setLang, h, lookupE, List.find?_cons_of_neg _ h]
        have := ih ht
        simpa [lookupE] using this
  · intro t lang term k hk
    induction t with
    | nil => rfl
    | cons p rest ih =>
      by_cases h : p.1 == lang
      · have hp1 : p.1 = lang := by simpa using h
        have hpk : ¬((p.1 == k) = true) := by
          rw [hp1]
          simp
          exact fun hc => hk hc.symm
        simp only [setLang, if_pos h]
        unfold lookupE
        rw [List.find?_cons_of_neg _ (by simpa using hpk),
          List.find?_cons_of_neg _ (by simpa using hpk)]
      · by_cases hpk : p.1 == k
        · simp only [setLang, if_neg h]
          unfold lookupE
          rw [List.find?_cons_of_pos _ (by simpa using hpk),
            List.find?_cons_of_pos _ (by simpa using hpk)]
        · simp only [setLang, if_neg h]
          unfold lookupE
          rw [List.find?_cons_of_neg _ (by simpa using hpk),
            List.find?_cons_of_neg _ (by simpa using hpk)]
          exact ih

/-- Closed instance of `applyTranslations_frame_spec`: an unnamed label is
untouched, an unknown language is skipped with no change, and a known
language is overwritten in place. -/
theorem applyTranslations_frame_spec_witness :
    applyLabel [("temp", [("fr", "new")])] ⟨"other", [[("fr", "x")]], []⟩ =
      (⟨"other", [[("fr", "x")]], []⟩, []) ∧
    applyLangTerm [[("fr", "x")]] "de" "y" = ([[("fr", "x")]], false) ∧
    applyLangTerm [[("de", "d")], [("fr", "x"), ("en", "e")]] "fr" "new" =
      ([[("de", "d")], [("fr", "new"), ("en", "e")]], true) ∧
    lookupE (setLang [("fr", "x"), ("en", "e")] "fr" "new") "fr" = some "new" ∧
    lookupE (setLang [("fr", "x"), ("en", "e")] "fr" "new") "en" =
      lookupE [("fr", "x"), ("en", "e")] "en" := by
  have h := applyTranslations_frame_spec
    ⟨[⟨"other", [[("fr", "x")]], []⟩], []⟩ [("temp", [("fr", "new")])]
  refine ⟨h.2.2.2.2.1 ⟨"other", [[("fr", "x")]], []⟩ (List.mem_singleton.mpr rfl) (by decide),
    h.2.2.2.2.2.2.1 [[("fr", "x")]] "de" "y" (by decide), ?_, ?_, ?_⟩
  · have := h.2.2.2.2.2.2.2.1 [[("de", "d")]] [("fr", "x"), ("en", "e")] [] "fr" "new"
      (by decide) (by decide)
    simpa using this
  · exact h.2.2.2.2.2.2.2.2.1 [("fr", "x"), ("en", "e")] "fr" "new" (by decide)
  · exact h.2.2.2.2.2.2.2.2.2 [("fr", "x"), ("en", "e")] "fr" "new" "en" (by decide)

/-! ## C6: characterisation of `checkFileApproval` -/

/-- The Boolean comment test, as a proposition. -/
theorem commentMatches_iff (env : ApprovalEnv) (token : List Char) (c : RComment) :
    commentMatches env token c = true ↔
      (c.path = env.decodedFilePath ∧ c.login ∈ env.reviewers ∧
        containsSub (jsToLowerL (jsTrimL c.body.data)) token = true) := by
  unfold commentMatches
  simp [Bool.and_eq_true, beq_iff_eq, List.contains, List.elem_iff, and_assoc]

/-- A label line whose comment search succeeds contributes an approved
record carrying its line number. -/
theorem scanLines_approved_of_find (env : ApprovalEnv) (ps : List (List Char × Nat))
    (p : List Char × Nat) (hp : p ∈ ps) (c : RComment)
    (hc : env.comments.find? (commentMatches env (approvedToken (jsTrimL p.1))) = some c) :
    ∃ rec ∈ (scanLines env ps).1, rec.lineNumber = p.2 := by
  induction ps with
  | nil => cases hp
  | cons q rest ih =>
    rcases List.mem_cons.mp hp with h1 | h2
    · subst h1
      refine ⟨⟨cleanLabelApproved (jsTrimL p.1), p.2, c.login, c.createdAt,
        c.commentId, c.htmlUrl⟩, ?_, rfl⟩
      simp only [scanLines, hc]
      exact List.mem_cons_self _ _
    · obtain ⟨rec, hrec, hln⟩ := ih h2
      refine ⟨rec, ?_, hln⟩
      simp only [scanLines]
      cases hq : env.comments.find? (commentMatches env (approvedToken (jsTrimL q.1))) with
      | none => exact hrec
      | some c' => exact List.mem_cons_of_mem _ hrec

/-- Every approved record comes from a label line whose comment search
succeeded, and carries that line's number. -/
theorem scanLines_approved_src (env : ApprovalEnv) (ps : List (List Char × Nat))
    (rec : ApprovedLabel) (h : rec ∈ (scanLines env ps).1) :
    ∃ p ∈ ps, rec.lineNumber = p.2 ∧
      ∃ c, env.comments.find? (commentMatches env (approvedToken (jsTrimL p.1))) = some c := by
  induction ps with
  | nil => cases h
  | cons q rest ih =>
    simp only [scanLines] at h
    cases hq : env.comments.find? (commentMatches env (approvedToken (jsTrimL q.1))) with
    | none =>
      rw [hq] at h
      obtain ⟨p, hp, hln, hfind⟩ := ih h
      exact ⟨p, List.mem_cons_of_mem _ hp, hln, hfind⟩
    | some c =>
      rw [hq] at h
      rcases List.mem_cons.mp h with h1 | h2
      · exact ⟨q, List.mem_cons_self _ _, by rw [h1], c, hq⟩
      · obtain ⟨p, hp, hln, hfind⟩ := ih h2
        exact ⟨p, List.mem_cons_of_mem _ hp, hln, hfind⟩

/-- The 1-based line numbers of the label lines are pairwise distinct. -/
theorem linesWithName_snd_nodup (content : String) :
    ((linesWithName content).map (fun p => p.2)).Nodup := by
  unfold linesWithName
  refine List.Nodup.sublist (List.Sublist.map _ (List.filter_sublist _)) ?_
  rw [List.map_map]
  have hcomp : ((fun p : List Char × Nat => p.2) ∘ fun p : Nat × List Char => (p.2, p.1 + 1)) =
      (fun n : Nat => n + 1) ∘ Prod.fst := rfl
  rw [hcomp, ← List.map_map, List.enum_map_fst]
  exact List.Nodup.map (fun a b hh => by omega) (List.nodup_range _)

/-- C6: a label line is marked approved iff some pull-request review comment
targets the decoded file path, is authored by an allow-listed reviewer, and
has a lowercased trimmed body containing the line's normalized
`approved-`-token as a substring; the returned `approved` flag is true iff
no label is unapproved and at least one is approved; and a file with zero
label lines yields `approved: false` with both label lists empty. -/
theorem checkFileApproval_spec (env : ApprovalEnv) :
    (∀ p ∈ linesWithName env.fileContent,
      ((∃ rec ∈ (checkFileApproval env).approvedLabels, rec.lineNumber = p.2) ↔
        ∃ c ∈ env.comments, c.path = env.decodedFilePath ∧ c.login ∈ env.reviewers ∧
          containsSub (jsToLowerL (jsTrimL c.body.data))
            (approvedToken (jsTrimL p.1)) = true)) ∧
    ((checkFileApproval env).approved = true ↔
      (checkFileApproval env).unapprovedLabels = [] ∧
      (checkFileApproval env).approvedLabels ≠ []) ∧
    (linesWithName env.fileContent = [] →
      checkFileApproval env = ⟨false, [], [], env.reviewers, env.decodedFilePath⟩) := by
  have happ : (checkFileApproval env).approvedLabels =
      (scanLines env (linesWithName env.fileContent)).1 := rfl
  refine ⟨?_, ?_, ?_⟩
  · intro p hp
    constructor
    · rintro ⟨rec, hrec, hln⟩
      rw [happ] at hrec
      obtain ⟨p', hp', hln', c, hfind⟩ := scanLines_approved_src env _ rec hrec
      have hpp : p' = p :=
        List.inj_on_of_nodup_map (linesWithName_snd_nodup env.fileContent) hp' hp
          (by rw [← hln', ← hln])
      subst hpp
      exact ⟨c, List.mem_of_find?_eq_some hfind,
        (commentMatches_iff env _ c).mp (List.find?_some hfind)⟩
    · rintro ⟨c, hcmem, hcond⟩
      have hsome : (env.comments.find?
          (commentMatches env (approvedToken (jsTrimL p.1)))).isSome = true :=
        List.find?_isSome.mpr ⟨c, hcmem, (commentMatches_iff env _ c).mpr hcond⟩
      obtain ⟨c', hc'⟩ := Option.isSome_iff_exists.mp hsome
      obtain ⟨rec, hrec, hln⟩ := scanLines_approved_of_find env _ p hp c' hc'
      exact ⟨rec, by rw [happ]; exact hrec, hln⟩
  · simp [checkFileApproval, Bool.and_eq_true, List.isEmpty_iff, Bool.not_eq_true',
      List.isEmpty_eq_false]
  · intro h
    simp [checkFileApproval, h, scanLines]

/-- Closed instance of `checkFileApproval_spec`: with two label lines and
one allow-listed review comment `approved-one: fr` on the file, line 2
(label `one`) is marked approved, and the overall flag is still false
because label `two` remains unapproved. -/
theorem checkFileApproval_spec_witness :
    (∃ rec ∈ (checkFileApproval
        ⟨"labels:\n  - name: \"one\"\n  - name: \"two\"",
          [⟨"f.yml", "rev", "approved-one: fr", "2024", 1, "u"⟩],
          ["rev"], "f.yml"⟩).approvedLabels, rec.lineNumber = 2) ∧
    ((checkFileApproval
        ⟨"labels:\n  - name: \"one\"\n  - name: \"two\"",
          [⟨"f.yml", "rev", "approved-one: fr", "2024", 1, "u"⟩],
          ["rev"], "f.yml"⟩).approved = true ↔
      (checkFileApproval
        ⟨"labels:\n  - name: \"one\"\n  - name: \"two\"",
          [⟨"f.yml", "rev", "approved-one: fr", "2024", 1, "u"⟩],
          ["rev"], "f.yml"⟩).unapprovedLabels = [] ∧
      (checkFileApproval
        ⟨"labels:\n  - name: \"one\"\n  - name: \"two\"",
          [⟨"f.yml", "rev", "approved-one: fr", "2024", 1, "u"⟩],
          ["rev"], "f.yml"⟩).approvedLabels ≠ []) := by
  have h := checkFileApproval_spec
    ⟨"labels:\n  - name: \"one\"\n  - name: \"two\"",
      [⟨"f.yml", "rev", "approved-one: fr", "2024", 1, "u"⟩],
      ["rev"], "f.yml"⟩
  refine ⟨?_, h.2.1⟩
  refine (h.1 ("  - name: \"one\"".data, 2) ?_).mpr ?_
  · decide
  · exact ⟨⟨"f.yml", "rev", "approved-one: fr", "2024", 1, "u"⟩,
      List.mem_singleton.mpr rfl, rfl, List.mem_singleton.mpr rfl, by decide⟩

end NodeBackEnd
